import Mathlib

/-!
Verification of the dual-replica spatial/pipeline training orchestrator
(torchgems/train_spatial_master.py). The Python source is shallowly
embedded: pure configuration checks become total Lean functions returning
an explicit success/failure value, the flat-buffer aliasing becomes index
arithmetic over lists, and the communication methods become functions that
build an explicit trace of the operations they issue, in program order.
-/

namespace TrainSpatialMaster

/-! ## Spatial configuration validation -/

/-- A number is an exact power of two. -/
def isPow2 (n : Nat) : Bool := (List.range (n + 1)).any fun k => n == 2 ^ k

/-- The slicing strategies accepted for spatial partitioning. -/
inductive SliceMethod where
  | square
  | vertical
  | horizontal
deriving DecidableEq

/-- Floor of the square root (largest k with k * k <= n). -/
def floorSqrt (n : Nat) : Nat :=
  ((List.range (n + 1)).countP fun k => k * k ≤ n) - 1

/-- Per-axis size of one spatial tile for a given partition count. -/
def tileSide (slice_method : SliceMethod) (image_size n : Nat) : Nat :=
  match slice_method with
  | .square => image_size / floorSqrt n
  | .vertical => image_size / n
  | .horizontal => image_size / n

/-- Modelled from the spec: the generic spatial validator
(verify_spatial_config, defined in torchgems/train_spatial.py, a file of the
repository that is not part of src/). Per the spec it checks that the image
size, every spatial partition count and every resulting tile size are exact
powers of two, aborting with an assertion failure otherwise. -/
def verify_spatial_config (slice_method : SliceMethod) (image_size : Nat)
    (num_spatial_parts_list : List Nat) : Except String Unit :=
  if isPow2 image_size &&
      num_spatial_parts_list.all
        (fun n => isPow2 n && isPow2 (tileSide slice_method image_size n)) then
    Except.ok ()
  else
    Except.error "spatial configuration must use power-of-two partitions and tiles"

/-- The master validator: reads the first entry of the partition list,
delegates to the generic spatial validator, then asserts
mp_size >= 2 * spatial_part_size. An empty partition list is an index
error; mp_size is an integer, so 2*k - 1 may be negative. -/
def verify_spatial_master_config (slice_method : SliceMethod) (image_size : Nat)
    (num_spatial_parts_list : List Nat) (spatial_size : Nat) (mp_size : Int) :
    Except String Unit :=
  match num_spatial_parts_list with
  | [] => Except.error "IndexError: list index out of range"
  | spatial_part_size :: _ =>
    match verify_spatial_config slice_method image_size num_spatial_parts_list with
    | Except.error msg => Except.error msg
    | Except.ok () =>
      if 2 * (spatial_part_size : Int) ≤ mp_size then
        Except.ok ()
      else
        Except.error "Spatial parts from each models i.e. model1 and model2 should use different ranks"

/-- Whether a validation outcome is a success. -/
def validationOk : Except String Unit → Bool
  | Except.ok _ => true
  | Except.error _ => false

/-! ## Buffers and point-to-point operations -/

/-- The device buffers owned by the orchestrator: the two flat parameter
buffers, the two flat gradient buffers, and the freshly allocated receive
buffer used by the gradient exchange. -/
inductive BufferId where
  | params1
  | params2
  | grads1
  | grads2
  | freshRecv
deriving DecidableEq

/-- One non-blocking point-to-point operation as issued to the communication
substrate: direction, transfer buffer, peer rank and message tag. -/
structure CommOp where
  isSend : Bool
  buf : BufferId
  peer : Nat
  tag : Nat
deriving DecidableEq

/-- send_params_model: one non-blocking send of a flat parameter buffer,
selecting flat_params_model2 on odd iterations and flat_params_model1
otherwise; tag 0. -/
def send_params_model (send_rank : Nat) (odd_iteration : Bool) : CommOp :=
  if odd_iteration then
    { isSend := true, buf := BufferId.params2, peer := send_rank, tag := 0 }
  else
    { isSend := true, buf := BufferId.params1, peer := send_rank, tag := 0 }

/-- recv_params_model: one non-blocking receive into a flat parameter buffer,
selecting flat_params_model1 on odd iterations and flat_params_model2
otherwise; tag 0. -/
def recv_params_model (recv_rank : Nat) (odd_iteration : Bool) : CommOp :=
  if odd_iteration then
    { isSend := false, buf := BufferId.params1, peer := recv_rank, tag := 0 }
  else
    { isSend := false, buf := BufferId.params2, peer := recv_rank, tag := 0 }

/-- send_grads_model: one non-blocking send of a flat gradient buffer,
selecting flat_grads_model2 on odd iterations and flat_grads_model1
otherwise; tag 0. -/
def send_grads_model (send_rank : Nat) (odd_iteration : Bool) : CommOp :=
  if odd_iteration then
    { isSend := true, buf := BufferId.grads2, peer := send_rank, tag := 0 }
  else
    { isSend := true, buf := BufferId.grads1, peer := send_rank, tag := 0 }

/-- recv_grads_model: one non-blocking receive into the buffer passed by the
caller (the freshly allocated receive buffer); tag 0. -/
def recv_grads_model (recv_grads : BufferId) (recv_rank : Nat) : CommOp :=
  { isSend := false, buf := recv_grads, peer := recv_rank, tag := 0 }

/-! ## Flat buffer manager

A model parameter is represented by its shape (a list of dimensions); a
replica's model by its list of parameter shapes in iteration order. A device
tensor is a list of values together with its gradient-tracking flag. The
aliasing pass of update_model_params_loc / update_model_grads_loc is
represented by the slice bounds and view shape it assigns to each parameter. -/

/-- Element count of a tensor of the given shape (the product of its
dimensions; a zero-dimensional tensor has one element). -/
def numel (shape : List Nat) : Nat := shape.prod

/-- A device tensor: its flat contents and its gradient-tracking flag. -/
structure TorchBuf where
  data : List Int
  requires_grad : Bool
deriving DecidableEq

/-- torch.zeros: a zero-initialized tensor of the given length. -/
def torch_zeros (size : Nat) (requires_grad : Bool) : TorchBuf :=
  { data := List.replicate size 0, requires_grad := requires_grad }

/-- get_model_parameter_size: the running sum of numel over the replica's
parameters, accumulated in iteration order. -/
def get_model_parameter_size (shapes : List (List Nat)) : Nat :=
  shapes.foldl (fun size s => size + numel s) 0

/-- One aliased parameter view: the half-open slice [start, stop) of the flat
buffer it references, viewed with the parameter's original shape. -/
structure ParamView where
  start : Nat
  stop : Nat
  shape : List Nat
deriving DecidableEq

/-- The aliasing loop of update_model_params_loc, started at a given running
index: each parameter gets the slice from the running index to the running
index plus its element count, viewed with its own shape, and the running
index advances to the slice's end. -/
def aliasFrom : Nat → List (List Nat) → List ParamView
  | _, [] => []
  | index_size, shape :: rest =>
    let last_index := index_size + numel shape
    { start := index_size, stop := last_index, shape := shape } ::
      aliasFrom last_index rest

/-- update_model_params_loc: alias every parameter of the model into the flat
parameter buffer, starting at index 0. -/
def update_model_params_loc (shapes : List (List Nat)) : List ParamView :=
  aliasFrom 0 shapes

/-- update_model_grads_loc: alias every parameter's gradient slot into the
flat gradient buffer, starting at index 0 (same slice computation). -/
def update_model_grads_loc (shapes : List (List Nat)) : List ParamView :=
  aliasFrom 0 shapes

/-- The per-replica state built by the constructor: the two flat buffers and
the aliasing of the model's parameters and gradient slots into them. -/
structure ReplicaBuffers where
  flat_params : TorchBuf
  flat_grads : TorchBuf
  param_views : List ParamView
  grad_views : List ParamView
deriving DecidableEq

/-- The per-replica part of train_spatial_model_master.__init__: compute the
replica's parameter count, allocate the zero-initialized flat parameter
buffer (with gradient tracking) and flat gradient buffer (without), and run
the single aliasing pass for parameters and for gradients. -/
def init_replica_buffers (shapes : List (List Nat)) : ReplicaBuffers :=
  let model_size := get_model_parameter_size shapes
  { flat_params := torch_zeros model_size true
    flat_grads := torch_zeros model_size false
    param_views := update_model_params_loc shapes
    grad_views := update_model_grads_loc shapes }

/-! ### Reads and writes through the aliased storage

params.data = flat_params[start:stop].view(shape) makes the parameter tensor
a view of the same storage: element access through the view at a row-major
multi-index touches the flat buffer at start + rowMajor shape index. -/

/-- Row-major linearization of a multi-index within a shape. -/
def rowMajor : List Nat → List Nat → Nat
  | _ :: dims, i :: idx => i * numel dims + rowMajor dims idx
  | _, _ => 0

/-- Read the flat buffer at a flat index (0 past the end). -/
def flatRead (buf : List Int) (k : Nat) : Int := buf.getD k 0

/-- Write a value at a flat index of the flat buffer. -/
def flatWrite (buf : List Int) (k : Nat) (v : Int) : List Int := buf.set k v

/-- Read a parameter element through its aliased view. -/
def viewRead (buf : List Int) (v : ParamView) (idx : List Nat) : Int :=
  flatRead buf (v.start + rowMajor v.shape idx)

/-- Write a parameter element through its aliased view. -/
def viewWrite (buf : List Int) (v : ParamView) (idx : List Nat) (x : Int) :
    List Int :=
  flatWrite buf (v.start + rowMajor v.shape idx) x

/-! ## Gradient accumulation state -/

/-- The two flat gradient buffers of the orchestrator, as values. -/
structure GradState where
  flat_grads_model1 : List Int
  flat_grads_model2 : List Int
deriving DecidableEq

/-- Elementwise in-place addition (torch +=) of the received buffer into a
gradient buffer. -/
def addInto (dst src : List Int) : List Int := dst.zipWith (· + ·) src

/-- The buffer mutation performed by send_recv_grads once both transfers have
completed: the received buffer is added into flat_grads_model1 on odd
iterations and into flat_grads_model2 otherwise; the other buffer is left
untouched. -/
def send_recv_grads_update (s : GradState) (received : List Int)
    (odd_iteration : Bool) : GradState :=
  if odd_iteration then
    { s with flat_grads_model1 := addInto s.flat_grads_model1 received }
  else
    { s with flat_grads_model2 := addInto s.flat_grads_model2 received }

/-! ## Execution traces

The communication methods and the step scheduler are embedded as functions
that build the sequence of externally visible operations they perform, in
program order: device synchronization, buffer allocation, issuing a
non-blocking operation, waiting on it, forward/backward calls on a replica
executor, and the gradient accumulation. -/

/-- Which of the two replicas an executor call belongs to. -/
inductive ReplicaTag where
  | model1
  | model2
deriving DecidableEq

/-- One externally visible operation of the orchestrator. -/
inductive Event where
  | cudaSync : Event
  | allocZeros (buf : BufferId) (size : Nat) : Event
  | issue (op : CommOp) : Event
  | wait (op : CommOp) : Event
  | forward (tag : ReplicaTag) (data labels : List Int)
      (start stop : Nat) (part : Nat) : Event
  | backward (tag : ReplicaTag) (y : Int) (part : Nat) : Event
  | accumulate (dst : BufferId) : Event
deriving DecidableEq

/-- The per-replica executor attributes the scheduler reads. -/
structure Executor where
  local_rank : Nat
  split_rank : Nat
  split_size : Nat
  parts : Nat
deriving DecidableEq

/-- The orchestrator's own attributes, as set by the constructor. -/
structure Master where
  mp_size : Nat
  local_rank : Nat
  batch_size : Nat
  parts : Nat
  model1_size : Nat
  model2_size : Nat
  train_model1 : Executor
  train_model2 : Executor
deriving DecidableEq

/-- Python slicing xs[start:stop] for 0 <= start <= stop. -/
def pySlice (xs : List Int) (start stop : Nat) : List Int :=
  (xs.take stop).drop start

/-- send_recv_params: after a device synchronization, a rank in the lower
half of the group issues its parameter send then its parameter receive; a
rank in the upper half issues the receive first; both target rank
mp_size - 1 - local_rank, and the first-issued request is waited on first. -/
def send_recv_params (m : Master) (odd_iteration : Bool) : List Event :=
  let send_recv_rank := m.mp_size - 1 - m.local_rank
  if m.local_rank < m.mp_size / 2 then
    [Event.cudaSync,
     Event.issue (send_params_model send_recv_rank odd_iteration),
     Event.issue (recv_params_model send_recv_rank odd_iteration),
     Event.wait (send_params_model send_recv_rank odd_iteration),
     Event.wait (recv_params_model send_recv_rank odd_iteration)]
  else
    [Event.cudaSync,
     Event.issue (recv_params_model send_recv_rank odd_iteration),
     Event.issue (send_params_model send_recv_rank odd_iteration),
     Event.wait (recv_params_model send_recv_rank odd_iteration),
     Event.wait (send_params_model send_recv_rank odd_iteration)]

/-- send_recv_grads: allocate the fresh zero receive buffer (sized by the
parity-selected model), synchronize the device, then issue the gradient send
followed by the gradient receive (both branches of the rank test do the
same), wait on both in issue order, and accumulate the received buffer into
the parity-selected local gradient buffer. -/
def send_recv_grads (m : Master) (odd_iteration : Bool) : List Event :=
  let send_recv_rank := m.mp_size - 1 - m.local_rank
  let allocE :=
    Event.allocZeros BufferId.freshRecv
      (if odd_iteration then m.model1_size else m.model2_size)
  if m.local_rank ≥ m.mp_size / 2 then
    [allocE, Event.cudaSync,
     Event.issue (send_grads_model send_recv_rank odd_iteration),
     Event.issue (recv_grads_model BufferId.freshRecv send_recv_rank),
     Event.wait (send_grads_model send_recv_rank odd_iteration),
     Event.wait (recv_grads_model BufferId.freshRecv send_recv_rank),
     Event.accumulate (if odd_iteration then BufferId.grads1 else BufferId.grads2)]
  else
    [allocE, Event.cudaSync,
     Event.issue (send_grads_model send_recv_rank odd_iteration),
     Event.issue (recv_grads_model BufferId.freshRecv send_recv_rank),
     Event.wait (send_grads_model send_recv_rank odd_iteration),
     Event.wait (recv_grads_model BufferId.freshRecv send_recv_rank),
     Event.accumulate (if odd_iteration then BufferId.grads1 else BufferId.grads2)]

/-! ### Trace classifiers and ordering -/

/-- The event issues a non-blocking send. -/
def Event.isIssueOfSend : Event → Bool
  | Event.issue op => op.isSend
  | _ => false

/-- The event issues a non-blocking receive. -/
def Event.isIssueOfRecv : Event → Bool
  | Event.issue op => !op.isSend
  | _ => false

/-- The event issues any non-blocking operation. -/
def Event.isIssueAny : Event → Bool
  | Event.issue _ => true
  | _ => false

/-- The event waits on a request. -/
def Event.isWaitAny : Event → Bool
  | Event.wait _ => true
  | _ => false

/-- The event is a forward_pass call of the given replica. -/
def Event.isForwardOf (tg : ReplicaTag) : Event → Bool
  | Event.forward tg2 _ _ _ _ _ => tg2 == tg
  | _ => false

/-- The event is a backward_pass call of the given replica. -/
def Event.isBackwardOf (tg : ReplicaTag) : Event → Bool
  | Event.backward tg2 _ _ => tg2 == tg
  | _ => false

/-- The event waits on a receive of a flat parameter buffer. -/
def Event.isWaitRecvParams : Event → Bool
  | Event.wait op => !op.isSend &&
      (op.buf == BufferId.params1 || op.buf == BufferId.params2)
  | _ => false

/-- The event issues a send of a flat parameter buffer. -/
def Event.isIssueSendParams : Event → Bool
  | Event.issue op => op.isSend &&
      (op.buf == BufferId.params1 || op.buf == BufferId.params2)
  | _ => false

/-- Every p-event of the trace happens strictly before every q-event. -/
def firesBefore (t : List Event) (p q : Event → Bool) : Prop :=
  ∀ i j, ∀ hi : i < t.length, ∀ hj : j < t.length,
    p (t.get ⟨i, hi⟩) = true → q (t.get ⟨j, hj⟩) = true → i < j

/-- If no q-event occurs in the first block and no p-event in the second,
every p-event of the concatenation precedes every q-event. -/
theorem firesBefore_append (t1 t2 : List Event) (p q : Event → Bool)
    (h1 : ∀ e ∈ t1, q e = false) (h2 : ∀ e ∈ t2, p e = false) :
    firesBefore (t1 ++ t2) p q := by
  intro i j hi hj hp hq
  rcases Nat.lt_or_ge j t1.length with hj1 | hj1
  · exfalso
    have e1 : (t1 ++ t2).get ⟨j, hj⟩ = t1.get ⟨j, hj1⟩ := by
      simp [List.get_eq_getElem, List.getElem_append_left hj1]
    rw [e1, h1 _ (List.get_mem t1 _ _)] at hq
    exact Bool.noConfusion hq
  · rcases Nat.lt_or_ge i t1.length with hi1 | hi1
    · omega
    · exfalso
      have hlen : i - t1.length < t2.length := by
        have := hi
        simp only [List.length_append] at this
        omega
      have e2 : (t1 ++ t2).get ⟨i, hi⟩ = t2.get ⟨i - t1.length, hlen⟩ := by
        simp [List.get_eq_getElem, List.getElem_append_right hi1]
      rw [e2, h2 _ (List.get_mem t2 _ _)] at hp
      exact Bool.noConfusion hp

/-! ## The interleaved step (run_step_allreduce) -/

/-- The forward-pass oracle: the replica executor's forward_pass, returning
(the loss value carried by the part's output, the part's correct count). -/
def FwdFun := ReplicaTag → List Int → List Int → Nat → Int × Int

/-- The forward loop of one section of run_step_allreduce: for each part i,
one forward_pass call on the micro-slice [i*parts_size, (i+1)*parts_size) of
this section's batch half. -/
def forward_loop_events (tag : ReplicaTag) (dx dy : List Int)
    (parts_size parts : Nat) : List Event :=
  (List.range parts).map fun i =>
    Event.forward tag
      (pySlice dx (i * parts_size) ((i + 1) * parts_size))
      (pySlice dy (i * parts_size) ((i + 1) * parts_size))
      (i * parts_size) ((i + 1) * parts_size) i

/-- y_list of one section: the per-part outputs of forward_pass, in part
order. -/
def y_list (fwd : FwdFun) (tag : ReplicaTag) (dx dy : List Int)
    (parts_size parts : Nat) : List Int :=
  (List.range parts).map fun i =>
    (fwd tag (pySlice dx (i * parts_size) ((i + 1) * parts_size))
      (pySlice dy (i * parts_size) ((i + 1) * parts_size)) i).1

/-- The per-part correct counts of one section, in part order. -/
def correct_list (fwd : FwdFun) (tag : ReplicaTag) (dx dy : List Int)
    (parts_size parts : Nat) : List Int :=
  (List.range parts).map fun i =>
    (fwd tag (pySlice dx (i * parts_size) ((i + 1) * parts_size))
      (pySlice dy (i * parts_size) ((i + 1) * parts_size)) i).2

/-- The loss accumulated by one section's forward loop: the sum of the
per-part outputs when this executor sits at the pipeline's terminal stage
(split_rank == split_size - 1), and 0 otherwise. -/
def loop_loss (fwd : FwdFun) (tag : ReplicaTag) (tm : Executor)
    (dx dy : List Int) (parts_size parts : Nat) : Int :=
  if tm.split_rank = tm.split_size - 1 then
    (y_list fwd tag dx dy parts_size parts).sum
  else 0

/-- The correct count accumulated by one section's forward loop. -/
def loop_corrects (fwd : FwdFun) (tag : ReplicaTag) (tm : Executor)
    (dx dy : List Int) (parts_size parts : Nat) : Int :=
  if tm.split_rank = tm.split_size - 1 then
    (correct_list fwd tag dx dy parts_size parts).sum
  else 0

/-- The backward loop of one section: backward_pass on y_list[i] for each
part i, in forward order. -/
def backward_loop_events (fwd : FwdFun) (tag : ReplicaTag) (dx dy : List Int)
    (parts_size parts : Nat) : List Event :=
  (List.range parts).map fun i =>
    Event.backward tag
      ((fwd tag (pySlice dx (i * parts_size) ((i + 1) * parts_size))
        (pySlice dy (i * parts_size) ((i + 1) * parts_size)) i).1) i

/-- The executor scheduled first in run_step_allreduce (tm1): train_model2
on odd iterations, train_model1 otherwise. -/
def step_tm1 (m : Master) (odd_iteration : Bool) : Executor :=
  if odd_iteration then m.train_model2 else m.train_model1

/-- The replica scheduled first in run_step_allreduce. -/
def step_tag1 (odd_iteration : Bool) : ReplicaTag :=
  if odd_iteration then ReplicaTag.model2 else ReplicaTag.model1

/-- The executor scheduled second in run_step_allreduce (tm2). -/
def step_tm2 (m : Master) (odd_iteration : Bool) : Executor :=
  if odd_iteration then m.train_model1 else m.train_model2

/-- The replica scheduled second in run_step_allreduce. -/
def step_tag2 (odd_iteration : Bool) : ReplicaTag :=
  if odd_iteration then ReplicaTag.model1 else ReplicaTag.model2

/-- First section, before the forward loop: the edge rank computes a
parity-dependent receive rank, immediately overwrites it with
mp_size - 1 - local_rank, receives the other replica's parameters and waits
for them; every other rank does nothing here. -/
def step_pre1 (m : Master) (odd_iteration : Bool) : List Event :=
  let tm1 := step_tm1 m odd_iteration
  if tm1.local_rank = m.mp_size - 1 then
    let recv_rank :=
      if odd_iteration then tm1.local_rank else m.mp_size - 1 - tm1.local_rank
    let recv_rank := m.mp_size - 1 - m.local_rank
    [Event.issue (recv_params_model recv_rank odd_iteration),
     Event.wait (recv_params_model recv_rank odd_iteration)]
  else []

/-- First section, between forward and backward: every non-edge rank runs
the combined parameter exchange. -/
def step_mid1 (m : Master) (odd_iteration : Bool) : List Event :=
  if (step_tm1 m odd_iteration).local_rank ≠ m.mp_size - 1 then
    send_recv_params m odd_iteration
  else []

/-- First section, after the backward loop: the edge rank computes a
parity-dependent send rank, immediately overwrites it with
mp_size - 1 - local_rank, sends its parameters and waits. -/
def step_post1 (m : Master) (odd_iteration : Bool) : List Event :=
  let tm1 := step_tm1 m odd_iteration
  if tm1.local_rank = m.mp_size - 1 then
    let send_rank :=
      if odd_iteration then tm1.local_rank else m.mp_size - 1 - tm1.local_rank
    let send_rank := m.mp_size - 1 - m.local_rank
    [Event.issue (send_params_model send_rank odd_iteration),
     Event.wait (send_params_model send_rank odd_iteration)]
  else []

/-- Second section, before the forward loop: the edge rank allocates a fresh
zero gradient buffer, receives the other replica's gradients into it
(again with the peer rank overwritten by mp_size - 1 - local_rank), waits,
and accumulates them into the parity-selected local gradient buffer. -/
def step_pre2 (m : Master) (odd_iteration : Bool) : List Event :=
  let tm2 := step_tm2 m odd_iteration
  if tm2.local_rank = m.mp_size - 1 then
    let allocE :=
      Event.allocZeros BufferId.freshRecv
        (if odd_iteration then m.model1_size else m.model2_size)
    let recv_rank := if odd_iteration then m.mp_size - 1 else tm2.local_rank
    let recv_rank := m.mp_size - 1 - m.local_rank
    [allocE,
     Event.issue (recv_grads_model BufferId.freshRecv recv_rank),
     Event.wait (recv_grads_model BufferId.freshRecv recv_rank),
     Event.accumulate
       (if odd_iteration then BufferId.grads1 else BufferId.grads2)]
  else []

/-- Second section, between forward and backward: every non-edge rank runs
the combined gradient exchange. -/
def step_mid2 (m : Master) (odd_iteration : Bool) : List Event :=
  if (step_tm2 m odd_iteration).local_rank ≠ m.mp_size - 1 then
    send_recv_grads m odd_iteration
  else []

/-- Second section, after the backward loop: the edge rank sends its
accumulated gradients outward and waits. -/
def step_post2 (m : Master) (odd_iteration : Bool) : List Event :=
  let tm2 := step_tm2 m odd_iteration
  if tm2.local_rank = m.mp_size - 1 then
    let send_rank := if odd_iteration then m.mp_size - 1 else tm2.local_rank
    let send_rank := m.mp_size - 1 - m.local_rank
    [Event.issue (send_grads_model send_rank odd_iteration),
     Event.wait (send_grads_model send_rank odd_iteration)]
  else []

/-- run_step_allreduce: the interleaved dual-replica step. Returns the
accumulated (loss, corrects) and the trace of operations, in program order.
The first-scheduled executor is train_model2 on odd iterations and
train_model1 otherwise; the first section runs on inputs[:batch_size], the
second on inputs[batch_size:]. The edge rank of the first section receives
parameters before its forward loop and sends them after its backward loop;
other ranks run the combined parameter exchange between forward and
backward. The second section does the same with gradients, accumulating the
received buffer into the parity-selected local gradient buffer. -/
def run_step_allreduce (m : Master) (fwd : FwdFun) (inputs labels : List Int)
    (odd_iteration : Bool) : Int × Int × List Event :=
  let parts_size := m.batch_size / m.parts
  let tm1 := step_tm1 m odd_iteration
  let tag1 := step_tag1 odd_iteration
  let tm2 := step_tm2 m odd_iteration
  let tag2 := step_tag2 odd_iteration
  -- Model_Gen1 section
  let dx1 := pySlice inputs 0 m.batch_size
  let dy1 := pySlice labels 0 m.batch_size
  let fwd1 := forward_loop_events tag1 dx1 dy1 parts_size m.parts
  let loss1 := loop_loss fwd tag1 tm1 dx1 dy1 parts_size m.parts
  let cor1 := loop_corrects fwd tag1 tm1 dx1 dy1 parts_size m.parts
  let bwd1 := backward_loop_events fwd tag1 dx1 dy1 parts_size m.parts
  -- Model_Gen2 section
  let dx2 := inputs.drop m.batch_size
  let dy2 := labels.drop m.batch_size
  let fwd2 := forward_loop_events tag2 dx2 dy2 parts_size m.parts
  let loss2 := loop_loss fwd tag2 tm2 dx2 dy2 parts_size m.parts
  let cor2 := loop_corrects fwd tag2 tm2 dx2 dy2 parts_size m.parts
  let bwd2 := backward_loop_events fwd tag2 dx2 dy2 parts_size m.parts
  (loss1 + loss2, cor1 + cor2,
   step_pre1 m odd_iteration ++ fwd1 ++ step_mid1 m odd_iteration ++ bwd1 ++
     step_post1 m odd_iteration ++ step_pre2 m odd_iteration ++ fwd2 ++
     step_mid2 m odd_iteration ++ bwd2 ++ step_post2 m odd_iteration)

/-! ### Spec-side formulations of the step accumulators -/

/-- Written from the spec: the step's returned loss is the sum, over the two
replicas in scheduling order and over each replica's parts micro-parts
(2 * parts contributions in total), of the per-part loss, counted only when
that replica's executor sits at the pipeline's terminal stage
(split_rank = split_size - 1); the first replica reads inputs[:batch_size],
the second inputs[batch_size:]. -/
def spec_step_loss (m : Master) (fwd : FwdFun) (inputs labels : List Int)
    (odd_iteration : Bool) : Int :=
  let ps := m.batch_size / m.parts
  (∑ i ∈ Finset.range m.parts,
    if (step_tm1 m odd_iteration).split_rank =
        (step_tm1 m odd_iteration).split_size - 1 then
      (fwd (step_tag1 odd_iteration)
        (pySlice (inputs.take m.batch_size) (i * ps) ((i + 1) * ps))
        (pySlice (labels.take m.batch_size) (i * ps) ((i + 1) * ps)) i).1
    else 0) +
  ∑ i ∈ Finset.range m.parts,
    if (step_tm2 m odd_iteration).split_rank =
        (step_tm2 m odd_iteration).split_size - 1 then
      (fwd (step_tag2 odd_iteration)
        (pySlice (inputs.drop m.batch_size) (i * ps) ((i + 1) * ps))
        (pySlice (labels.drop m.batch_size) (i * ps) ((i + 1) * ps)) i).1
    else 0

/-- Written from the spec: the step's returned correct count, aggregated the
same way as the loss. -/
def spec_step_corrects (m : Master) (fwd : FwdFun) (inputs labels : List Int)
    (odd_iteration : Bool) : Int :=
  let ps := m.batch_size / m.parts
  (∑ i ∈ Finset.range m.parts,
    if (step_tm1 m odd_iteration).split_rank =
        (step_tm1 m odd_iteration).split_size - 1 then
      (fwd (step_tag1 odd_iteration)
        (pySlice (inputs.take m.batch_size) (i * ps) ((i + 1) * ps))
        (pySlice (labels.take m.batch_size) (i * ps) ((i + 1) * ps)) i).2
    else 0) +
  ∑ i ∈ Finset.range m.parts,
    if (step_tm2 m odd_iteration).split_rank =
        (step_tm2 m odd_iteration).split_size - 1 then
      (fwd (step_tag2 odd_iteration)
        (pySlice (inputs.drop m.batch_size) (i * ps) ((i + 1) * ps))
        (pySlice (labels.drop m.batch_size) (i * ps) ((i + 1) * ps)) i).2
    else 0

/-- The tags of the forward_pass calls of a trace, in order. -/
def forwardTags (t : List Event) : List ReplicaTag :=
  t.filterMap fun e =>
    match e with
    | Event.forward tg _ _ _ _ _ => some tg
    | _ => none

/-! ## Basic facts about the point-to-point operation builders -/

@[simp] theorem send_params_model_isSend (r : Nat) (odd : Bool) :
    (send_params_model r odd).isSend = true := by
  cases odd <;> rfl

@[simp] theorem recv_params_model_isSend (r : Nat) (odd : Bool) :
    (recv_params_model r odd).isSend = false := by
  cases odd <;> rfl

@[simp] theorem send_grads_model_isSend (r : Nat) (odd : Bool) :
    (send_grads_model r odd).isSend = true := by
  cases odd <;> rfl

@[simp] theorem recv_grads_model_isSend (b : BufferId) (r : Nat) :
    (recv_grads_model b r).isSend = false := rfl

@[simp] theorem send_params_model_peer (r : Nat) (odd : Bool) :
    (send_params_model r odd).peer = r := by
  cases odd <;> rfl

@[simp] theorem recv_params_model_peer (r : Nat) (odd : Bool) :
    (recv_params_model r odd).peer = r := by
  cases odd <;> rfl

@[simp] theorem send_grads_model_peer (r : Nat) (odd : Bool) :
    (send_grads_model r odd).peer = r := by
  cases odd <;> rfl

@[simp] theorem recv_grads_model_peer (b : BufferId) (r : Nat) :
    (recv_grads_model b r).peer = r := rfl

@[simp] theorem send_params_model_buf (r : Nat) (odd : Bool) :
    (send_params_model r odd).buf =
      (if odd then BufferId.params2 else BufferId.params1) := by
  cases odd <;> rfl

@[simp] theorem recv_params_model_buf (r : Nat) (odd : Bool) :
    (recv_params_model r odd).buf =
      (if odd then BufferId.params1 else BufferId.params2) := by
  cases odd <;> rfl

@[simp] theorem send_grads_model_buf (r : Nat) (odd : Bool) :
    (send_grads_model r odd).buf =
      (if odd then BufferId.grads2 else BufferId.grads1) := by
  cases odd <;> rfl

@[simp] theorem recv_grads_model_buf (b : BufferId) (r : Nat) :
    (recv_grads_model b r).buf = b := rfl

/-- Sanity: a legal configuration passes the master validator. -/
theorem master_config_ok_example :
    validationOk (verify_spatial_master_config SliceMethod.square 8 [4] 1 8) =
      true := by decide

/-! ## C1: master configuration validation -/

/-- C1: verify_spatial_master_config first delegates to the generic spatial
validator, then asserts mp_size >= 2 * num_spatial_parts_list[0]. Every
configuration it accepts satisfies the inequality, and for every k a call
with mp_size = 2*k - 1 and first partition count k fails validation, so the
run aborts before any buffer is allocated. -/
theorem C1_master_config_validation (slice_method : SliceMethod)
    (image_size : Nat) (num_spatial_parts_list : List Nat)
    (spatial_size : Nat) (mp_size : Int) :
    (verify_spatial_master_config slice_method image_size
        num_spatial_parts_list spatial_size mp_size = Except.ok () →
      ∀ k, num_spatial_parts_list.head? = some k → 2 * (k : Int) ≤ mp_size) ∧
    (∀ (k : Nat) (rest : List Nat), num_spatial_parts_list = k :: rest →
      validationOk (verify_spatial_master_config slice_method image_size
        num_spatial_parts_list spatial_size (2 * (k : Int) - 1)) = false) := by
  constructor
  · intro hok k hk
    cases num_spatial_parts_list with
    | nil => simp at hk
    | cons k0 rest =>
      have hk0 : k0 = k := by simpa using hk
      subst hk0
      replace hok :
          (match verify_spatial_config slice_method image_size (k0 :: rest) with
            | Except.error msg => Except.error msg
            | Except.ok () =>
              if 2 * (k0 : Int) ≤ mp_size then Except.ok ()
              else Except.error "Spatial parts from each models i.e. model1 and model2 should use different ranks") =
            Except.ok () := hok
      cases hv : verify_spatial_config slice_method image_size (k0 :: rest) with
      | error msg =>
        rw [hv] at hok
        exact Except.noConfusion hok
      | ok u =>
        cases u
        rw [hv] at hok
        replace hok :
            (if 2 * (k0 : Int) ≤ mp_size then Except.ok ()
             else (Except.error "Spatial parts from each models i.e. model1 and model2 should use different ranks" : Except String Unit)) =
              Except.ok () := hok
        by_cases hle : 2 * (k0 : Int) ≤ mp_size
        · exact hle
        · rw [if_neg hle] at hok
          exact Except.noConfusion hok
  · intro k rest hl
    subst hl
    show validationOk
      (match verify_spatial_config slice_method image_size (k :: rest) with
        | Except.error msg => Except.error msg
        | Except.ok () =>
          if 2 * (k : Int) ≤ 2 * (k : Int) - 1 then Except.ok ()
          else Except.error "Spatial parts from each models i.e. model1 and model2 should use different ranks") = false
    cases hv : verify_spatial_config slice_method image_size (k :: rest) with
    | error msg => rfl
    | ok u =>
      cases u
      rw [if_neg (show ¬ 2 * (k : Int) ≤ 2 * (k : Int) - 1 by omega)]
      rfl

/-! ## C2: transfer-buffer selection of the parameter send/receive -/

/-- C2 counterexample: the claim states that on an odd iteration both the
parameter send and the parameter receive select flat_params_model2; the
receive in fact selects flat_params_model1. -/
theorem C2_recv_buffer_counterexample :
    ¬ ((send_params_model 3 true).buf = BufferId.params2 ∧
       (recv_params_model 3 true).buf = BufferId.params2) := by
  decide

/-- C2 (amended): the send selects flat_params_model2 when odd_iteration and
flat_params_model1 otherwise, while the receive selects the complementary
buffer: flat_params_model1 when odd_iteration and flat_params_model2
otherwise. Each issues one non-blocking operation toward the given rank with
tag 0 and returns the request for the caller to wait on. -/
theorem C2_transfer_buffer_selection (r : Nat) (odd_iteration : Bool) :
    (send_params_model r odd_iteration).isSend = true ∧
    (recv_params_model r odd_iteration).isSend = false ∧
    (send_params_model r odd_iteration).peer = r ∧
    (recv_params_model r odd_iteration).peer = r ∧
    (send_params_model r odd_iteration).tag = 0 ∧
    (recv_params_model r odd_iteration).tag = 0 ∧
    (send_params_model r odd_iteration).buf =
      (if odd_iteration then BufferId.params2 else BufferId.params1) ∧
    (recv_params_model r odd_iteration).buf =
      (if odd_iteration then BufferId.params1 else BufferId.params2) := by
  cases odd_iteration <;>
    simp [send_params_model, recv_params_model]

/-! ## C3, C4: flat buffer construction and aliasing -/

/-- Sum of element counts of the first i parameters: the slice boundary the
aliasing pass reaches after processing them. -/
def presumNumel (shapes : List (List Nat)) (i : Nat) : Nat :=
  ((shapes.take i).map numel).sum

theorem foldl_numel_eq (shapes : List (List Nat)) (a : Nat) :
    shapes.foldl (fun size s => size + numel s) a =
      a + (shapes.map numel).sum := by
  induction shapes generalizing a with
  | nil => simp
  | cons s rest ih =>
    simp only [List.foldl_cons, List.map_cons, List.sum_cons, ih]
    omega

theorem get_model_parameter_size_eq (shapes : List (List Nat)) :
    get_model_parameter_size shapes = (shapes.map numel).sum := by
  simpa using foldl_numel_eq shapes 0

theorem presumNumel_succ (shapes : List (List Nat)) (i : Nat)
    (hi : i < shapes.length) :
    presumNumel shapes (i + 1) =
      presumNumel shapes i + numel (shapes.getD i []) := by
  induction shapes generalizing i with
  | nil => simp at hi
  | cons s rest ih =>
    cases i with
    | zero => simp [presumNumel]
    | succ i =>
      have h := ih i (by simpa using hi)
      simp only [presumNumel, List.take_succ_cons, List.map_cons,
        List.sum_cons, List.getD_cons_succ] at h ⊢
      omega

theorem aliasFrom_length (n : Nat) (shapes : List (List Nat)) :
    (aliasFrom n shapes).length = shapes.length := by
  induction shapes generalizing n with
  | nil => rfl
  | cons s rest ih => simp [aliasFrom, ih]

theorem aliasFrom_getD (shapes : List (List Nat)) (n i : Nat)
    (hi : i < shapes.length) :
    (aliasFrom n shapes).getD i { start := 0, stop := 0, shape := [] } =
      { start := n + presumNumel shapes i,
        stop := n + presumNumel shapes (i + 1),
        shape := shapes.getD i [] } := by
  induction shapes generalizing n i with
  | nil => simp at hi
  | cons s rest ih =>
    cases i with
    | zero => simp [aliasFrom, presumNumel]
    | succ i =>
      have hi' : i < rest.length := by simpa using hi
      simp only [aliasFrom, List.getD_cons_succ]
      rw [ih _ _ hi']
      simp only [presumNumel, List.take_succ_cons, List.map_cons,
        List.sum_cons, List.getD_cons_succ, ParamView.mk.injEq, and_true]
      omega

theorem aliasFrom_start_ge (shapes : List (List Nat)) (n : Nat) :
    ∀ v ∈ aliasFrom n shapes, n ≤ v.start := by
  induction shapes generalizing n with
  | nil => simp [aliasFrom]
  | cons s rest ih =>
    intro v hv
    simp only [aliasFrom, List.mem_cons] at hv
    rcases hv with rfl | hv
    · simp
    · exact le_trans (Nat.le_add_right n (numel s)) (ih (n + numel s) v hv)

theorem aliasFrom_stop_le (shapes : List (List Nat)) (n : Nat) :
    ∀ v ∈ aliasFrom n shapes, v.stop ≤ n + (shapes.map numel).sum := by
  induction shapes generalizing n with
  | nil => simp [aliasFrom]
  | cons s rest ih =>
    intro v hv
    simp only [aliasFrom, List.mem_cons] at hv
    rcases hv with rfl | hv
    · simp only [List.map_cons, List.sum_cons]
      omega
    · have h := ih (n + numel s) v hv
      simp only [List.map_cons, List.sum_cons]
      omega

theorem aliasFrom_pairwise (shapes : List (List Nat)) (n : Nat) :
    (aliasFrom n shapes).Pairwise (fun u v => u.stop ≤ v.start) := by
  induction shapes generalizing n with
  | nil => exact List.Pairwise.nil
  | cons s rest ih =>
    refine List.Pairwise.cons ?_ (ih (n + numel s))
    intro v hv
    exact aliasFrom_start_ge rest (n + numel s) v hv

theorem aliasFrom_cover (shapes : List (List Nat)) (n k : Nat)
    (hk : k < (shapes.map numel).sum) :
    ∃ v ∈ aliasFrom n shapes, v.start ≤ n + k ∧ n + k < v.stop := by
  induction shapes generalizing n k with
  | nil => simp at hk
  | cons s rest ih =>
    by_cases h : k < numel s
    · refine ⟨{ start := n, stop := n + numel s, shape := s },
        by simp [aliasFrom], ?_, ?_⟩
      · show n ≤ n + k
        omega
      · show n + k < n + numel s
        omega
    · have hk' : k - numel s < (rest.map numel).sum := by
        simp only [List.map_cons, List.sum_cons] at hk
        omega
      obtain ⟨v, hv, h1, h2⟩ := ih (n + numel s) (k - numel s) hk'
      refine ⟨v, ?_, by omega, by omega⟩
      simp only [aliasFrom, List.mem_cons]
      exact Or.inr hv

/-- C3: for each replica the constructor allocates a zero-initialized flat
parameter buffer with gradient tracking and a zero-initialized flat gradient
buffer without it, each of length the sum of the parameters' element counts;
the single aliasing pass gives parameter i the slice from the end of
parameter i-1's slice (the first starting at 0) with the parameter's
original shape, so the slices are pairwise non-overlapping and together
cover exactly the whole buffer, with the same slices for the gradient
buffer. -/
theorem C3_flat_buffer_construction (shapes : List (List Nat)) :
    ((init_replica_buffers shapes).flat_params.data =
        List.replicate ((shapes.map numel).sum) 0 ∧
      (init_replica_buffers shapes).flat_params.requires_grad = true) ∧
    ((init_replica_buffers shapes).flat_grads.data =
        List.replicate ((shapes.map numel).sum) 0 ∧
      (init_replica_buffers shapes).flat_grads.requires_grad = false) ∧
    (init_replica_buffers shapes).param_views.length = shapes.length ∧
    (∀ i, i < shapes.length →
      (init_replica_buffers shapes).param_views.getD i
          { start := 0, stop := 0, shape := [] } =
        { start := presumNumel shapes i,
          stop := presumNumel shapes (i + 1),
          shape := shapes.getD i [] } ∧
      presumNumel shapes (i + 1) =
        presumNumel shapes i + numel (shapes.getD i [])) ∧
    presumNumel shapes 0 = 0 ∧
    (init_replica_buffers shapes).param_views.Pairwise
      (fun u v => u.stop ≤ v.start) ∧
    (∀ v ∈ (init_replica_buffers shapes).param_views,
      v.stop ≤ (shapes.map numel).sum) ∧
    (∀ k, k < (shapes.map numel).sum →
      ∃ v ∈ (init_replica_buffers shapes).param_views,
        v.start ≤ k ∧ k < v.stop) ∧
    (init_replica_buffers shapes).grad_views =
      (init_replica_buffers shapes).param_views := by
  refine ⟨⟨?_, rfl⟩, ⟨?_, rfl⟩, ?_, ?_, rfl, ?_, ?_, ?_, rfl⟩
  · show (torch_zeros (get_model_parameter_size shapes) true).data = _
    rw [torch_zeros, get_model_parameter_size_eq]
  · show (torch_zeros (get_model_parameter_size shapes) false).data = _
    rw [torch_zeros, get_model_parameter_size_eq]
  · exact aliasFrom_length 0 shapes
  · intro i hi
    refine ⟨?_, presumNumel_succ shapes i hi⟩
    have h := aliasFrom_getD shapes 0 i hi
    simpa using h
  · exact aliasFrom_pairwise shapes 0
  · intro v hv
    simpa using aliasFrom_stop_le shapes 0 v hv
  · intro k hk
    simpa using aliasFrom_cover shapes 0 k hk

theorem getD_set_self (l : List Int) (k : Nat) (v : Int) (h : k < l.length) :
    (l.set k v).getD k 0 = v := by
  induction l generalizing k with
  | nil => simp at h
  | cons a l ih =>
    cases k with
    | zero => rfl
    | succ k =>
      simp only [List.set_cons_succ, List.getD_cons_succ]
      exact ih k (by simpa using h)

/-- C4: aliasing round-trip. For the replica with parameter shapes
[(3,4), (5,)] (17 elements) the aliasing pass produces the slices [0,12) and
[12,17); a write at flat index 0 is read back as element [0,0] of the first
parameter view, a write of element [0,0] through the view is read back at
flat index 0, and in general a write through either side of the aliasing is
visible through the other at the corresponding index. -/
theorem C4_alias_round_trip :
    update_model_params_loc [[3, 4], [5]] =
      [{ start := 0, stop := 12, shape := [3, 4] },
       { start := 12, stop := 17, shape := [5] }] ∧
    (∀ (buf : List Int) (v : Int), buf.length = 17 →
      viewRead (flatWrite buf 0 v)
          { start := 0, stop := 12, shape := [3, 4] } [0, 0] = v ∧
      flatRead (viewWrite buf
          { start := 0, stop := 12, shape := [3, 4] } [0, 0] v) 0 = v) ∧
    (∀ (buf : List Int) (w : ParamView) (idx : List Nat) (v : Int),
      w.start + rowMajor w.shape idx < buf.length →
      viewRead (viewWrite buf w idx v) w idx = v ∧
      flatRead (viewWrite buf w idx v) (w.start + rowMajor w.shape idx) = v ∧
      viewRead (flatWrite buf (w.start + rowMajor w.shape idx) v) w idx = v) := by
  refine ⟨by decide, ?_, ?_⟩
  · intro buf v hlen
    have h0 : (0 : Nat) < buf.length := by omega
    have hrm : rowMajor [3, 4] [0, 0] = 0 := by decide
    constructor
    · simp only [viewRead, flatWrite, flatRead, hrm, Nat.add_zero]
      exact getD_set_self buf 0 v h0
    · simp only [viewWrite, flatRead, flatWrite, hrm, Nat.add_zero]
      exact getD_set_self buf 0 v h0
  · intro buf w idx v h
    refine ⟨?_, ?_, ?_⟩ <;>
      simp only [viewRead, viewWrite, flatRead, flatWrite] <;>
      exact getD_set_self buf _ v h

/-- Adding an all-zero buffer of matching length changes nothing. -/
theorem addInto_zero (g z : List Int) (hlen : z.length = g.length)
    (hz : ∀ x ∈ z, x = 0) : addInto g z = g := by
  induction g generalizing z with
  | nil => simp [addInto]
  | cons a g ih =>
    cases z with
    | nil => simp at hlen
    | cons b z =>
      have hb : b = 0 := hz b (by simp)
      have hrest := ih z (by simpa using hlen)
        (fun x hx => hz x (by simp [hx]))
      simp only [addInto, List.zipWith_cons_cons] at hrest ⊢
      rw [hb, hrest]
      simp

/-- C7: send_recv_grads accumulates the received buffer additively into the
parity-selected local gradient buffer (flat_grads_model1 on odd iterations,
flat_grads_model2 otherwise), leaves the other buffer untouched, and in
particular leaves both buffers unchanged whenever the received buffer is all
zeros of matching length. -/
theorem C7_grad_accumulation_additive (s : GradState) (received : List Int)
    (odd_iteration : Bool) :
    ((send_recv_grads_update s received odd_iteration).flat_grads_model1 =
      (if odd_iteration then addInto s.flat_grads_model1 received
       else s.flat_grads_model1)) ∧
    ((send_recv_grads_update s received odd_iteration).flat_grads_model2 =
      (if odd_iteration then s.flat_grads_model2
       else addInto s.flat_grads_model2 received)) ∧
    (received.length =
        (if odd_iteration then s.flat_grads_model1
         else s.flat_grads_model2).length →
      (∀ x ∈ received, x = 0) →
      send_recv_grads_update s received odd_iteration = s) := by
  refine ⟨?_, ?_, ?_⟩
  · cases odd_iteration <;> simp [send_recv_grads_update]
  · cases odd_iteration <;> simp [send_recv_grads_update]
  · cases odd_iteration
    · intro hlen hz
      show { s with flat_grads_model2 := addInto s.flat_grads_model2 received } = s
      rw [addInto_zero _ _ (by simpa using hlen) hz]
    · intro hlen hz
      show { s with flat_grads_model1 := addInto s.flat_grads_model1 received } = s
      rw [addInto_zero _ _ (by simpa using hlen) hz]

/-! ## C5, C6: ordering of the combined exchanges -/

/-- The gradient exchange issues the same operation sequence on both sides
of the rank test. -/
theorem send_recv_grads_eq (m : Master) (odd_iteration : Bool) :
    send_recv_grads m odd_iteration =
      [Event.allocZeros BufferId.freshRecv
         (if odd_iteration then m.model1_size else m.model2_size),
       Event.cudaSync,
       Event.issue (send_grads_model (m.mp_size - 1 - m.local_rank) odd_iteration),
       Event.issue (recv_grads_model BufferId.freshRecv (m.mp_size - 1 - m.local_rank)),
       Event.wait (send_grads_model (m.mp_size - 1 - m.local_rank) odd_iteration),
       Event.wait (recv_grads_model BufferId.freshRecv (m.mp_size - 1 - m.local_rank)),
       Event.accumulate
         (if odd_iteration then BufferId.grads1 else BufferId.grads2)] := by
  unfold send_recv_grads
  split <;> split <;> rfl

/-- C5: in send_recv_params, a rank in the lower half of the group issues
its send before its receive, a rank in the upper half issues its receive
before its send, every issued or waited operation targets rank
mp_size - 1 - local_rank, both operations are issued before either is
waited on, and the waits are the final two operations of the call. -/
theorem C5_send_recv_params_protocol (m : Master) (odd_iteration : Bool) :
    (m.local_rank < m.mp_size / 2 →
      firesBefore (send_recv_params m odd_iteration)
        Event.isIssueOfSend Event.isIssueOfRecv) ∧
    (¬ m.local_rank < m.mp_size / 2 →
      firesBefore (send_recv_params m odd_iteration)
        Event.isIssueOfRecv Event.isIssueOfSend) ∧
    Event.issue (send_params_model (m.mp_size - 1 - m.local_rank)
        odd_iteration) ∈ send_recv_params m odd_iteration ∧
    Event.issue (recv_params_model (m.mp_size - 1 - m.local_rank)
        odd_iteration) ∈ send_recv_params m odd_iteration ∧
    (∀ op, Event.issue op ∈ send_recv_params m odd_iteration ∨
        Event.wait op ∈ send_recv_params m odd_iteration →
      op.peer = m.mp_size - 1 - m.local_rank) ∧
    firesBefore (send_recv_params m odd_iteration)
      Event.isIssueAny Event.isWaitAny ∧
    (send_recv_params m odd_iteration).map Event.isWaitAny =
      [false, false, false, true, true] := by
  unfold send_recv_params
  by_cases hc : m.local_rank < m.mp_size / 2
  · rw [if_pos hc]
    refine ⟨fun _ => ?_, fun hc2 => absurd hc hc2, by simp, by simp, ?_, ?_, ?_⟩
    · show firesBefore
        (([_, _] : List Event) ++ ([_, _, _] : List Event)) _ _
      refine firesBefore_append _ _ _ _ ?_ ?_
      · intro e he
        simp only [List.mem_cons, List.not_mem_nil, or_false] at he
        rcases he with rfl | rfl
        · rfl
        · simp [Event.isIssueOfRecv]
      · intro e he
        simp only [List.mem_cons, List.not_mem_nil, or_false] at he
        rcases he with rfl | rfl | rfl
        · simp [Event.isIssueOfSend]
        · rfl
        · rfl
    · rintro op (hmem | hmem) <;>
        simp only [List.mem_cons, List.not_mem_nil, or_false] at hmem <;>
        rcases hmem with h | h | h | h | h <;>
        first
          | exact Event.noConfusion h
          | (simp only [Event.issue.injEq, Event.wait.injEq] at h
             subst h
             simp)
    · show firesBefore
        (([_, _, _] : List Event) ++ ([_, _] : List Event)) _ _
      refine firesBefore_append _ _ _ _ ?_ ?_
      · intro e he
        simp only [List.mem_cons, List.not_mem_nil, or_false] at he
        rcases he with rfl | rfl | rfl <;> rfl
      · intro e he
        simp only [List.mem_cons, List.not_mem_nil, or_false] at he
        rcases he with rfl | rfl <;> rfl
    · rfl
  · rw [if_neg hc]
    refine ⟨fun hc2 => absurd hc2 hc, fun _ => ?_, by simp, by simp, ?_, ?_, ?_⟩
    · show firesBefore
        (([_, _] : List Event) ++ ([_, _, _] : List Event)) _ _
      refine firesBefore_append _ _ _ _ ?_ ?_
      · intro e he
        simp only [List.mem_cons, List.not_mem_nil, or_false] at he
        rcases he with rfl | rfl
        · rfl
        · simp [Event.isIssueOfSend]
      · intro e he
        simp only [List.mem_cons, List.not_mem_nil, or_false] at he
        rcases he with rfl | rfl | rfl
        · simp [Event.isIssueOfRecv]
        · rfl
        · rfl
    · rintro op (hmem | hmem) <;>
        simp only [List.mem_cons, List.not_mem_nil, or_false] at hmem <;>
        rcases hmem with h | h | h | h | h <;>
        first
          | exact Event.noConfusion h
          | (simp only [Event.issue.injEq, Event.wait.injEq] at h
             subst h
             simp)
    · show firesBefore
        (([_, _, _] : List Event) ++ ([_, _] : List Event)) _ _
      refine firesBefore_append _ _ _ _ ?_ ?_
      · intro e he
        simp only [List.mem_cons, List.not_mem_nil, or_false] at he
        rcases he with rfl | rfl | rfl <;> rfl
      · intro e he
        simp only [List.mem_cons, List.not_mem_nil, or_false] at he
        rcases he with rfl | rfl <;> rfl
    · rfl

/-- C6: in send_recv_grads every rank, on both sides of the rank test,
issues its gradient send before its gradient receive, both toward rank
mp_size - 1 - local_rank: the gradient exchange uses a fixed
send-then-receive order, unlike the parameter exchange. -/
theorem C6_grads_fixed_send_then_recv (m : Master) (odd_iteration : Bool) :
    firesBefore (send_recv_grads m odd_iteration)
      Event.isIssueOfSend Event.isIssueOfRecv ∧
    Event.issue (send_grads_model (m.mp_size - 1 - m.local_rank)
        odd_iteration) ∈ send_recv_grads m odd_iteration ∧
    Event.issue (recv_grads_model BufferId.freshRecv
        (m.mp_size - 1 - m.local_rank)) ∈ send_recv_grads m odd_iteration := by
  rw [send_recv_grads_eq]
  refine ⟨?_, by simp, by simp⟩
  show firesBefore
    (([_, _, _] : List Event) ++ ([_, _, _, _] : List Event)) _ _
  refine firesBefore_append _ _ _ _ ?_ ?_
  · intro e he
    simp only [List.mem_cons, List.not_mem_nil, or_false] at he
    rcases he with rfl | rfl | rfl
    · cases odd_iteration <;> rfl
    · rfl
    · simp [Event.isIssueOfRecv]
  · intro e he
    simp only [List.mem_cons, List.not_mem_nil, or_false] at he
    rcases he with rfl | rfl | rfl | rfl
    · rfl
    · rfl
    · rfl
    · cases odd_iteration <;> rfl

/-! ## C8, C9, C10: the interleaved step -/

theorem mem_send_recv_params {m : Master} {odd : Bool} {e : Event}
    (h : e ∈ send_recv_params m odd) :
    e = Event.cudaSync ∨
    e = Event.issue (send_params_model (m.mp_size - 1 - m.local_rank) odd) ∨
    e = Event.issue (recv_params_model (m.mp_size - 1 - m.local_rank) odd) ∨
    e = Event.wait (send_params_model (m.mp_size - 1 - m.local_rank) odd) ∨
    e = Event.wait (recv_params_model (m.mp_size - 1 - m.local_rank) odd) := by
  unfold send_recv_params at h
  split at h <;>
    simp only [List.mem_cons, List.not_mem_nil, or_false] at h <;>
    tauto

theorem mem_send_recv_grads {m : Master} {odd : Bool} {e : Event}
    (h : e ∈ send_recv_grads m odd) :
    e = Event.allocZeros BufferId.freshRecv
        (if odd then m.model1_size else m.model2_size) ∨
    e = Event.cudaSync ∨
    e = Event.issue (send_grads_model (m.mp_size - 1 - m.local_rank) odd) ∨
    e = Event.issue (recv_grads_model BufferId.freshRecv
        (m.mp_size - 1 - m.local_rank)) ∨
    e = Event.wait (send_grads_model (m.mp_size - 1 - m.local_rank) odd) ∨
    e = Event.wait (recv_grads_model BufferId.freshRecv
        (m.mp_size - 1 - m.local_rank)) ∨
    e = Event.accumulate (if odd then BufferId.grads1 else BufferId.grads2) := by
  rw [send_recv_grads_eq] at h
  simp only [List.mem_cons, List.not_mem_nil, or_false] at h
  tauto

theorem mem_step_pre1 {m : Master} {odd : Bool} {e : Event}
    (h : e ∈ step_pre1 m odd) :
    e = Event.issue (recv_params_model (m.mp_size - 1 - m.local_rank) odd) ∨
    e = Event.wait (recv_params_model (m.mp_size - 1 - m.local_rank) odd) := by
  simp only [step_pre1] at h
  split at h <;>
    simp only [List.mem_cons, List.not_mem_nil, or_false] at h <;>
    tauto

theorem mem_step_mid1 {m : Master} {odd : Bool} {e : Event}
    (h : e ∈ step_mid1 m odd) : e ∈ send_recv_params m odd := by
  unfold step_mid1 at h
  split at h
  · exact h
  · simp at h

theorem mem_step_post1 {m : Master} {odd : Bool} {e : Event}
    (h : e ∈ step_post1 m odd) :
    e = Event.issue (send_params_model (m.mp_size - 1 - m.local_rank) odd) ∨
    e = Event.wait (send_params_model (m.mp_size - 1 - m.local_rank) odd) := by
  simp only [step_post1] at h
  split at h <;>
    simp only [List.mem_cons, List.not_mem_nil, or_false] at h <;>
    tauto

theorem mem_step_pre2 {m : Master} {odd : Bool} {e : Event}
    (h : e ∈ step_pre2 m odd) :
    e = Event.allocZeros BufferId.freshRecv
        (if odd then m.model1_size else m.model2_size) ∨
    e = Event.issue (recv_grads_model BufferId.freshRecv
        (m.mp_size - 1 - m.local_rank)) ∨
    e = Event.wait (recv_grads_model BufferId.freshRecv
        (m.mp_size - 1 - m.local_rank)) ∨
    e = Event.accumulate (if odd then BufferId.grads1 else BufferId.grads2) := by
  simp only [step_pre2] at h
  split at h <;>
    simp only [List.mem_cons, List.not_mem_nil, or_false] at h <;>
    tauto

theorem mem_step_mid2 {m : Master} {odd : Bool} {e : Event}
    (h : e ∈ step_mid2 m odd) : e ∈ send_recv_grads m odd := by
  unfold step_mid2 at h
  split at h
  · exact h
  · simp at h

theorem mem_step_post2 {m : Master} {odd : Bool} {e : Event}
    (h : e ∈ step_post2 m odd) :
    e = Event.issue (send_grads_model (m.mp_size - 1 - m.local_rank) odd) ∨
    e = Event.wait (send_grads_model (m.mp_size - 1 - m.local_rank) odd) := by
  simp only [step_post2] at h
  split at h <;>
    simp only [List.mem_cons, List.not_mem_nil, or_false] at h <;>
    tauto

theorem mem_forward_loop_events {tag : ReplicaTag} {dx dy : List Int}
    {ps n : Nat} {e : Event} (h : e ∈ forward_loop_events tag dx dy ps n) :
    ∃ i, i < n ∧
      e = Event.forward tag (pySlice dx (i * ps) ((i + 1) * ps))
        (pySlice dy (i * ps) ((i + 1) * ps)) (i * ps) ((i + 1) * ps) i := by
  unfold forward_loop_events at h
  simp only [List.mem_map, List.mem_range] at h
  obtain ⟨i, hi, rfl⟩ := h
  exact ⟨i, hi, rfl⟩

theorem mem_backward_loop_events {fwd : FwdFun} {tag : ReplicaTag}
    {dx dy : List Int} {ps n : Nat} {e : Event}
    (h : e ∈ backward_loop_events fwd tag dx dy ps n) :
    ∃ y i, e = Event.backward tag y i := by
  unfold backward_loop_events at h
  simp only [List.mem_map, List.mem_range] at h
  obtain ⟨i, hi, rfl⟩ := h
  exact ⟨_, i, rfl⟩

theorem forwardTags_append (t1 t2 : List Event) :
    forwardTags (t1 ++ t2) = forwardTags t1 ++ forwardTags t2 := by
  unfold forwardTags
  exact List.filterMap_append _ _ _

theorem forwardTags_eq_nil {t : List Event}
    (h : ∀ e ∈ t, ∀ (tg : ReplicaTag) (d l : List Int) (s p i : Nat),
      e ≠ Event.forward tg d l s p i) :
    forwardTags t = [] := by
  unfold forwardTags
  rw [List.filterMap_eq_nil]
  intro e he
  cases e with
  | forward tg d l s p i => exact absurd rfl (h _ he tg d l s p i)
  | cudaSync => rfl
  | allocZeros b sz => rfl
  | issue op => rfl
  | wait op => rfl
  | backward tg y p => rfl
  | accumulate b => rfl

/-- The step's returned loss, unfolded to the two sections' loop
accumulators. -/
theorem run_step_allreduce_loss (m : Master) (fwd : FwdFun)
    (inputs labels : List Int) (odd : Bool) :
    (run_step_allreduce m fwd inputs labels odd).1 =
      loop_loss fwd (step_tag1 odd) (step_tm1 m odd)
        (pySlice inputs 0 m.batch_size) (pySlice labels 0 m.batch_size)
        (m.batch_size / m.parts) m.parts +
      loop_loss fwd (step_tag2 odd) (step_tm2 m odd)
        (inputs.drop m.batch_size) (labels.drop m.batch_size)
        (m.batch_size / m.parts) m.parts := rfl

/-- The step's returned correct count, unfolded to the two sections' loop
accumulators. -/
theorem run_step_allreduce_corrects (m : Master) (fwd : FwdFun)
    (inputs labels : List Int) (odd : Bool) :
    (run_step_allreduce m fwd inputs labels odd).2.1 =
      loop_corrects fwd (step_tag1 odd) (step_tm1 m odd)
        (pySlice inputs 0 m.batch_size) (pySlice labels 0 m.batch_size)
        (m.batch_size / m.parts) m.parts +
      loop_corrects fwd (step_tag2 odd) (step_tm2 m odd)
        (inputs.drop m.batch_size) (labels.drop m.batch_size)
        (m.batch_size / m.parts) m.parts := rfl

/-- The step's trace, unfolded to its ten consecutive blocks. -/
theorem run_step_allreduce_trace (m : Master) (fwd : FwdFun)
    (inputs labels : List Int) (odd : Bool) :
    (run_step_allreduce m fwd inputs labels odd).2.2 =
      step_pre1 m odd ++
      forward_loop_events (step_tag1 odd) (pySlice inputs 0 m.batch_size)
        (pySlice labels 0 m.batch_size) (m.batch_size / m.parts) m.parts ++
      step_mid1 m odd ++
      backward_loop_events fwd (step_tag1 odd) (pySlice inputs 0 m.batch_size)
        (pySlice labels 0 m.batch_size) (m.batch_size / m.parts) m.parts ++
      step_post1 m odd ++ step_pre2 m odd ++
      forward_loop_events (step_tag2 odd) (inputs.drop m.batch_size)
        (labels.drop m.batch_size) (m.batch_size / m.parts) m.parts ++
      step_mid2 m odd ++
      backward_loop_events fwd (step_tag2 odd) (inputs.drop m.batch_size)
        (labels.drop m.batch_size) (m.batch_size / m.parts) m.parts ++
      step_post2 m odd := rfl

theorem forwardTags_step_pre1 (m : Master) (odd : Bool) :
    forwardTags (step_pre1 m odd) = [] := by
  apply forwardTags_eq_nil
  intro e he tg d l s p i
  rcases mem_step_pre1 he with rfl | rfl <;> simp

theorem forwardTags_step_mid1 (m : Master) (odd : Bool) :
    forwardTags (step_mid1 m odd) = [] := by
  apply forwardTags_eq_nil
  intro e he tg d l s p i
  rcases mem_send_recv_params (mem_step_mid1 he) with rfl | rfl | rfl | rfl | rfl <;>
    simp

theorem forwardTags_step_post1 (m : Master) (odd : Bool) :
    forwardTags (step_post1 m odd) = [] := by
  apply forwardTags_eq_nil
  intro e he tg d l s p i
  rcases mem_step_post1 he with rfl | rfl <;> simp

theorem forwardTags_step_pre2 (m : Master) (odd : Bool) :
    forwardTags (step_pre2 m odd) = [] := by
  apply forwardTags_eq_nil
  intro e he tg d l s p i
  rcases mem_step_pre2 he with rfl | rfl | rfl | rfl <;> simp

theorem forwardTags_step_mid2 (m : Master) (odd : Bool) :
    forwardTags (step_mid2 m odd) = [] := by
  apply forwardTags_eq_nil
  intro e he tg d l s p i
  rcases mem_send_recv_grads (mem_step_mid2 he) with
    rfl | rfl | rfl | rfl | rfl | rfl | rfl <;> simp

theorem forwardTags_step_post2 (m : Master) (odd : Bool) :
    forwardTags (step_post2 m odd) = [] := by
  apply forwardTags_eq_nil
  intro e he tg d l s p i
  rcases mem_step_post2 he with rfl | rfl <;> simp

theorem forwardTags_backward_loop (fwd : FwdFun) (tag : ReplicaTag)
    (dx dy : List Int) (ps n : Nat) :
    forwardTags (backward_loop_events fwd tag dx dy ps n) = [] := by
  apply forwardTags_eq_nil
  intro e he tg d l s p i
  obtain ⟨y, j, rfl⟩ := mem_backward_loop_events he
  simp

theorem forwardTags_forward_loop (tag : ReplicaTag) (dx dy : List Int)
    (ps n : Nat) :
    forwardTags (forward_loop_events tag dx dy ps n) =
      List.replicate n tag := by
  induction n with
  | zero => rfl
  | succ n ih =>
    have h1 : forward_loop_events tag dx dy ps (n + 1) =
        forward_loop_events tag dx dy ps n ++
          [Event.forward tag (pySlice dx (n * ps) ((n + 1) * ps))
            (pySlice dy (n * ps) ((n + 1) * ps)) (n * ps) ((n + 1) * ps) n] := by
      unfold forward_loop_events
      rw [List.range_succ, List.map_append]
      rfl
    rw [h1, forwardTags_append, ih, List.replicate_succ']
    rfl

theorem pySlice_zero (xs : List Int) (b : Nat) : pySlice xs 0 b = xs.take b := by
  simp [pySlice]

theorem list_range_map_sum (f : Nat → Int) (n : Nat) :
    ((List.range n).map f).sum = ∑ i ∈ Finset.range n, f i := by
  induction n with
  | zero => rfl
  | succ n ih =>
    rw [List.range_succ, List.map_append, List.sum_append,
      Finset.sum_range_succ, ih]
    simp

theorem loop_loss_eq_sum (fwd : FwdFun) (tag : ReplicaTag) (tm : Executor)
    (dx dy : List Int) (ps n : Nat) :
    loop_loss fwd tag tm dx dy ps n =
      ∑ i ∈ Finset.range n,
        if tm.split_rank = tm.split_size - 1 then
          (fwd tag (pySlice dx (i * ps) ((i + 1) * ps))
            (pySlice dy (i * ps) ((i + 1) * ps)) i).1
        else 0 := by
  unfold loop_loss y_list
  by_cases hsp : tm.split_rank = tm.split_size - 1
  · simp only [if_pos hsp]
    exact list_range_map_sum _ n
  · simp only [if_neg hsp]
    simp

theorem loop_corrects_eq_sum (fwd : FwdFun) (tag : ReplicaTag) (tm : Executor)
    (dx dy : List Int) (ps n : Nat) :
    loop_corrects fwd tag tm dx dy ps n =
      ∑ i ∈ Finset.range n,
        if tm.split_rank = tm.split_size - 1 then
          (fwd tag (pySlice dx (i * ps) ((i + 1) * ps))
            (pySlice dy (i * ps) ((i + 1) * ps)) i).2
        else 0 := by
  unfold loop_corrects correct_list
  by_cases hsp : tm.split_rank = tm.split_size - 1
  · simp only [if_pos hsp]
    exact list_range_map_sum _ n
  · simp only [if_neg hsp]
    simp

/-- Every forward_pass call of the step belongs to one of the two forward
loops: its part index is below parts, its slice bounds are the part's
micro-range, and its data comes from the scheduled replica's batch half. -/
theorem forward_mem_run_step {m : Master} {fwd : FwdFun}
    {inputs labels : List Int} {odd : Bool} {tg : ReplicaTag}
    {data lbls : List Int} {s t i : Nat}
    (h : Event.forward tg data lbls s t i ∈
      (run_step_allreduce m fwd inputs labels odd).2.2) :
    i < m.parts ∧ s = i * (m.batch_size / m.parts) ∧
      t = (i + 1) * (m.batch_size / m.parts) ∧
      ((tg = step_tag1 odd ∧
        data = pySlice (pySlice inputs 0 m.batch_size) s t ∧
        lbls = pySlice (pySlice labels 0 m.batch_size) s t) ∨
       (tg = step_tag2 odd ∧
        data = pySlice (inputs.drop m.batch_size) s t ∧
        lbls = pySlice (labels.drop m.batch_size) s t)) := by
  rw [run_step_allreduce_trace] at h
  simp only [List.mem_append] at h
  rcases h with ((((((((h | h) | h) | h) | h) | h) | h) | h) | h) | h
  · rcases mem_step_pre1 h with h' | h' <;> exact Event.noConfusion h'
  · obtain ⟨j, hj, heq⟩ := mem_forward_loop_events h
    simp only [Event.forward.injEq] at heq
    obtain ⟨h1, h2, h3, h4, h5, h6⟩ := heq
    subst h6
    refine ⟨hj, h4, h5, Or.inl ⟨h1, ?_, ?_⟩⟩
    · rw [h4, h5]
      exact h2
    · rw [h4, h5]
      exact h3
  · rcases mem_send_recv_params (mem_step_mid1 h) with
      h' | h' | h' | h' | h' <;> exact Event.noConfusion h'
  · obtain ⟨y, j, h'⟩ := mem_backward_loop_events h
    exact Event.noConfusion h'
  · rcases mem_step_post1 h with h' | h' <;> exact Event.noConfusion h'
  · rcases mem_step_pre2 h with h' | h' | h' | h' <;> exact Event.noConfusion h'
  · obtain ⟨j, hj, heq⟩ := mem_forward_loop_events h
    simp only [Event.forward.injEq] at heq
    obtain ⟨h1, h2, h3, h4, h5, h6⟩ := heq
    subst h6
    refine ⟨hj, h4, h5, Or.inr ⟨h1, ?_, ?_⟩⟩
    · rw [h4, h5]
      exact h2
    · rw [h4, h5]
      exact h3
  · rcases mem_send_recv_grads (mem_step_mid2 h) with
      h' | h' | h' | h' | h' | h' | h' <;> exact Event.noConfusion h'
  · obtain ⟨y, j, h'⟩ := mem_backward_loop_events h
    exact Event.noConfusion h'
  · rcases mem_step_post2 h with h' | h' <;> exact Event.noConfusion h'

/-- C8: run_step_allreduce schedules train_model1's section first and
train_model2's second when odd_iteration is false and swaps the two when it
is true; the first-scheduled replica reads inputs[:batch_size] and the
second inputs[batch_size:]; and the returned (loss, corrects) equal the
sums of the per-micro-part values contributed only at the pipeline's
terminal stage (split_rank = split_size - 1) over the parts micro-parts of
each of the two replicas — 2 * parts forward contributions in total. -/
theorem C8_step_schedule_and_accumulators (m : Master) (fwd : FwdFun)
    (inputs labels : List Int) (odd_iteration : Bool) :
    (run_step_allreduce m fwd inputs labels odd_iteration).1 =
      spec_step_loss m fwd inputs labels odd_iteration ∧
    (run_step_allreduce m fwd inputs labels odd_iteration).2.1 =
      spec_step_corrects m fwd inputs labels odd_iteration ∧
    forwardTags (run_step_allreduce m fwd inputs labels odd_iteration).2.2 =
      List.replicate m.parts
        (if odd_iteration then ReplicaTag.model2 else ReplicaTag.model1) ++
      List.replicate m.parts
        (if odd_iteration then ReplicaTag.model1 else ReplicaTag.model2) ∧
    (forwardTags
        (run_step_allreduce m fwd inputs labels odd_iteration).2.2).length =
      2 * m.parts ∧
    (∀ tg data lbls s t i,
      Event.forward tg data lbls s t i ∈
        (run_step_allreduce m fwd inputs labels odd_iteration).2.2 →
      (tg = step_tag1 odd_iteration ∧
        data = pySlice (pySlice inputs 0 m.batch_size) s t) ∨
      (tg = step_tag2 odd_iteration ∧
        data = pySlice (inputs.drop m.batch_size) s t)) := by
  have htags : forwardTags
      (run_step_allreduce m fwd inputs labels odd_iteration).2.2 =
      List.replicate m.parts (step_tag1 odd_iteration) ++
        List.replicate m.parts (step_tag2 odd_iteration) := by
    rw [run_step_allreduce_trace]
    simp only [forwardTags_append, forwardTags_step_pre1,
      forwardTags_step_mid1, forwardTags_step_post1, forwardTags_step_pre2,
      forwardTags_step_mid2, forwardTags_step_post2,
      forwardTags_backward_loop, forwardTags_forward_loop, List.append_nil,
      List.nil_append]
  refine ⟨?_, ?_, ?_, ?_, ?_⟩
  · rw [run_step_allreduce_loss, loop_loss_eq_sum, loop_loss_eq_sum]
    simp only [spec_step_loss]
    rw [pySlice_zero inputs, pySlice_zero labels]
  · rw [run_step_allreduce_corrects, loop_corrects_eq_sum,
      loop_corrects_eq_sum]
    simp only [spec_step_corrects]
    rw [pySlice_zero inputs, pySlice_zero labels]
  · rw [htags]
    rfl
  · rw [htags]
    simp only [List.length_append, List.length_replicate]
    omega
  · intro tg data lbls s t i hmem
    rcases (forward_mem_run_step hmem).2.2.2 with ⟨h1, h2, _⟩ | ⟨h1, h2, _⟩
    · exact Or.inl ⟨h1, h2⟩
    · exact Or.inr ⟨h1, h2⟩

/-- C10: the micro-part size is int(batch_size / parts); micro-part i of
either replica's section covers exactly the index range
[i * parts_size, (i + 1) * parts_size) of that replica's batch half; every
such range lies below batch_size - batch_size % parts, so when parts does
not evenly divide batch_size the last batch_size % parts samples of each
half fall inside no micro-part's range — they are silently dropped, no
error is raised. -/
theorem C10_micro_part_ranges_truncate (m : Master) (fwd : FwdFun)
    (inputs labels : List Int) (odd_iteration : Bool) :
    ∀ tg data lbls s t i,
      Event.forward tg data lbls s t i ∈
        (run_step_allreduce m fwd inputs labels odd_iteration).2.2 →
      s = i * (m.batch_size / m.parts) ∧
      t = (i + 1) * (m.batch_size / m.parts) ∧
      i < m.parts ∧
      t ≤ m.batch_size - m.batch_size % m.parts ∧
      (∀ k, m.batch_size - m.batch_size % m.parts ≤ k → ¬ (s ≤ k ∧ k < t)) := by
  intro tg data lbls s t i hmem
  obtain ⟨hi, hs, ht, _⟩ := forward_mem_run_step hmem
  have hmul : (i + 1) * (m.batch_size / m.parts) ≤
      m.parts * (m.batch_size / m.parts) := by
    apply Nat.mul_le_mul_right
    omega
  have hdm := Nat.div_add_mod m.batch_size m.parts
  have hmod : m.batch_size % m.parts ≤ m.batch_size :=
    Nat.mod_le _ _
  refine ⟨hs, ht, hi, by omega, ?_⟩
  intro k hk
  omega

/-- Witness: with batch_size = 5 and parts = 2 (parts does not divide the
batch) the first micro-part of the first replica covers exactly [0, 2), and
no micro-part range of that step reaches the final 5 % 2 = 1 sample of the
half. -/
theorem C10_micro_part_ranges_truncate_witness :
    (0 : Nat) = 0 * (5 / 2) ∧ (2 : Nat) = (0 + 1) * (5 / 2) ∧
    (0 : Nat) < 2 ∧ (2 : Nat) ≤ 5 - 5 % 2 ∧
    (∀ k : Nat, 5 - 5 % 2 ≤ k → ¬ ((0 : Nat) ≤ k ∧ k < 2)) :=
  C10_micro_part_ranges_truncate
    { mp_size := 4, local_rank := 1, batch_size := 5, parts := 2,
      model1_size := 3, model2_size := 3,
      train_model1 :=
        { local_rank := 1, split_rank := 0, split_size := 1, parts := 2 },
      train_model2 :=
        { local_rank := 2, split_rank := 0, split_size := 1, parts := 2 } }
    (fun _ _ _ _ => (1, 1))
    [0, 1, 2, 3, 4, 5, 6, 7, 8, 9] [0, 1, 2, 3, 4, 5, 6, 7, 8, 9] false
    ReplicaTag.model1 [0, 1] [0, 1] 0 2 0 (by decide)

theorem step_pre1_edge {m : Master} {odd : Bool}
    (hedge : (step_tm1 m odd).local_rank = m.mp_size - 1) :
    step_pre1 m odd =
      [Event.issue (recv_params_model (m.mp_size - 1 - m.local_rank) odd),
       Event.wait (recv_params_model (m.mp_size - 1 - m.local_rank) odd)] := by
  simp only [step_pre1]
  rw [if_pos hedge]

theorem step_mid1_edge {m : Master} {odd : Bool}
    (hedge : (step_tm1 m odd).local_rank = m.mp_size - 1) :
    step_mid1 m odd = [] := by
  simp only [step_mid1]
  rw [if_neg (by simp [hedge])]

theorem step_post1_edge {m : Master} {odd : Bool}
    (hedge : (step_tm1 m odd).local_rank = m.mp_size - 1) :
    step_post1 m odd =
      [Event.issue (send_params_model (m.mp_size - 1 - m.local_rank) odd),
       Event.wait (send_params_model (m.mp_size - 1 - m.local_rank) odd)] := by
  simp only [step_post1]
  rw [if_pos hedge]

theorem firesBefore_of_partition (t t1 t2 : List Event) (p q : Event → Bool)
    (hsplit : t = t1 ++ t2)
    (h1 : ∀ e ∈ t1, q e = false) (h2 : ∀ e ∈ t2, p e = false) :
    firesBefore t p q := by
  subst hsplit
  exact firesBefore_append t1 t2 p q h1 h2

/-- C9: when the first-scheduled replica sits at the edge rank
(local_rank = mp_size - 1), the step waits on its parameter receive before
issuing any forward_pass of that replica, issues its parameter send only
after all of that replica's backward_pass calls, and every parameter
operation of the trace targets rank mp_size - 1 - local_rank for either
parity — the parity-dependent rank computed just before it is dead and
never takes effect. -/
theorem C9_edge_rank_parameter_schedule (m : Master) (fwd : FwdFun)
    (inputs labels : List Int) (odd_iteration : Bool)
    (hedge : (step_tm1 m odd_iteration).local_rank = m.mp_size - 1) :
    Event.wait (recv_params_model (m.mp_size - 1 - m.local_rank)
        odd_iteration) ∈
      (run_step_allreduce m fwd inputs labels odd_iteration).2.2 ∧
    firesBefore (run_step_allreduce m fwd inputs labels odd_iteration).2.2
      Event.isWaitRecvParams
      (Event.isForwardOf (step_tag1 odd_iteration)) ∧
    Event.issue (send_params_model (m.mp_size - 1 - m.local_rank)
        odd_iteration) ∈
      (run_step_allreduce m fwd inputs labels odd_iteration).2.2 ∧
    firesBefore (run_step_allreduce m fwd inputs labels odd_iteration).2.2
      (Event.isBackwardOf (step_tag1 odd_iteration))
      Event.isIssueSendParams ∧
    (∀ e ∈ (run_step_allreduce m fwd inputs labels odd_iteration).2.2,
      ∀ op, (e = Event.issue op ∨ e = Event.wait op) →
        (op.buf = BufferId.params1 ∨ op.buf = BufferId.params2) →
        op.peer = m.mp_size - 1 - m.local_rank) := by
  have htr := run_step_allreduce_trace m fwd inputs labels odd_iteration
  rw [step_pre1_edge hedge, step_mid1_edge hedge, step_post1_edge hedge]
    at htr
  refine ⟨?_, ?_, ?_, ?_, ?_⟩
  · rw [htr]
    simp
  · refine firesBefore_of_partition _
      [Event.issue (recv_params_model (m.mp_size - 1 - m.local_rank)
         odd_iteration),
       Event.wait (recv_params_model (m.mp_size - 1 - m.local_rank)
         odd_iteration)]
      (forward_loop_events (step_tag1 odd_iteration)
         (pySlice inputs 0 m.batch_size) (pySlice labels 0 m.batch_size)
         (m.batch_size / m.parts) m.parts ++
       (backward_loop_events fwd (step_tag1 odd_iteration)
          (pySlice inputs 0 m.batch_size) (pySlice labels 0 m.batch_size)
          (m.batch_size / m.parts) m.parts ++
        ([Event.issue (send_params_model (m.mp_size - 1 - m.local_rank)
            odd_iteration),
          Event.wait (send_params_model (m.mp_size - 1 - m.local_rank)
            odd_iteration)] ++
         (step_pre2 m odd_iteration ++
          (forward_loop_events (step_tag2 odd_iteration)
             (inputs.drop m.batch_size) (labels.drop m.batch_size)
             (m.batch_size / m.parts) m.parts ++
           (step_mid2 m odd_iteration ++
            (backward_loop_events fwd (step_tag2 odd_iteration)
               (inputs.drop m.batch_size) (labels.drop m.batch_size)
               (m.batch_size / m.parts) m.parts ++
             step_post2 m odd_iteration)))))))
      _ _ ?_ ?_ ?_
    · rw [htr]
      simp [List.append_assoc]
    · intro e he
      simp only [List.mem_cons, List.not_mem_nil, or_false] at he
      rcases he with rfl | rfl <;> rfl
    · intro e he
      simp only [List.mem_append] at he
      rcases he with he | he | he | he | he | he | he | he
      · obtain ⟨j, hj, rfl⟩ := mem_forward_loop_events he
        rfl
      · obtain ⟨y, j, rfl⟩ := mem_backward_loop_events he
        rfl
      · simp only [List.mem_cons, List.not_mem_nil, or_false] at he
        rcases he with rfl | rfl
        · rfl
        · cases odd_iteration <;> rfl
      · rcases mem_step_pre2 he with rfl | rfl | rfl | rfl <;> rfl
      · obtain ⟨j, hj, rfl⟩ := mem_forward_loop_events he
        rfl
      · rcases mem_send_recv_grads (mem_step_mid2 he) with
          rfl | rfl | rfl | rfl | rfl | rfl | rfl
        · rfl
        · rfl
        · rfl
        · rfl
        · cases odd_iteration <;> rfl
        · rfl
        · rfl
      · obtain ⟨y, j, rfl⟩ := mem_backward_loop_events he
        rfl
      · rcases mem_step_post2 he with rfl | rfl
        · rfl
        · cases odd_iteration <;> rfl
  · rw [htr]
    simp
  · refine firesBefore_of_partition _
      ([Event.issue (recv_params_model (m.mp_size - 1 - m.local_rank)
          odd_iteration),
        Event.wait (recv_params_model (m.mp_size - 1 - m.local_rank)
          odd_iteration)] ++
       (forward_loop_events (step_tag1 odd_iteration)
          (pySlice inputs 0 m.batch_size) (pySlice labels 0 m.batch_size)
          (m.batch_size / m.parts) m.parts ++
        backward_loop_events fwd (step_tag1 odd_iteration)
          (pySlice inputs 0 m.batch_size) (pySlice labels 0 m.batch_size)
          (m.batch_size / m.parts) m.parts))
      ([Event.issue (send_params_model (m.mp_size - 1 - m.local_rank)
          odd_iteration),
        Event.wait (send_params_model (m.mp_size - 1 - m.local_rank)
          odd_iteration)] ++
       (step_pre2 m odd_iteration ++
        (forward_loop_events (step_tag2 odd_iteration)
           (inputs.drop m.batch_size) (labels.drop m.batch_size)
           (m.batch_size / m.parts) m.parts ++
         (step_mid2 m odd_iteration ++
          (backward_loop_events fwd (step_tag2 odd_iteration)
             (inputs.drop m.batch_size) (labels.drop m.batch_size)
             (m.batch_size / m.parts) m.parts ++
           step_post2 m odd_iteration)))))
      _ _ ?_ ?_ ?_
    · rw [htr]
      simp [List.append_assoc]
    · intro e he
      simp only [List.mem_append, List.mem_cons, List.not_mem_nil, or_false]
        at he
      rcases he with (rfl | rfl) | he | he
      · cases odd_iteration <;> rfl
      · rfl
      · obtain ⟨j, hj, rfl⟩ := mem_forward_loop_events he
        rfl
      · obtain ⟨y, j, rfl⟩ := mem_backward_loop_events he
        rfl
    · intro e he
      simp only [List.mem_append, List.mem_cons, List.not_mem_nil, or_false]
        at he
      rcases he with (rfl | rfl) | he | he | he | he | he
      · rfl
      · rfl
      · rcases mem_step_pre2 he with rfl | rfl | rfl | rfl <;> rfl
      · obtain ⟨j, hj, rfl⟩ := mem_forward_loop_events he
        rfl
      · rcases mem_send_recv_grads (mem_step_mid2 he) with
          rfl | rfl | rfl | rfl | rfl | rfl | rfl <;>
          first
            | rfl
            | (cases odd_iteration <;> rfl)
      · obtain ⟨y, j, rfl⟩ := mem_backward_loop_events he
        cases odd_iteration <;> rfl
      · rcases mem_step_post2 he with rfl | rfl <;> rfl
  · intro e he op hop hbuf
    rw [run_step_allreduce_trace] at he
    simp only [List.mem_append] at he
    rcases he with ((((((((he | he) | he) | he) | he) | he) | he) | he) | he) | he
    · rcases mem_step_pre1 he with rfl | rfl
      · rcases hop with h | h
        · simp only [Event.issue.injEq] at h
          subst h
          simp
        · exact Event.noConfusion h
      · rcases hop with h | h
        · exact Event.noConfusion h
        · simp only [Event.wait.injEq] at h
          subst h
          simp
    · obtain ⟨j, hj, rfl⟩ := mem_forward_loop_events he
      rcases hop with h | h <;> exact Event.noConfusion h
    · rcases mem_send_recv_params (mem_step_mid1 he) with
        rfl | rfl | rfl | rfl | rfl
      · rcases hop with h | h <;> exact Event.noConfusion h
      · rcases hop with h | h
        · simp only [Event.issue.injEq] at h
          subst h
          simp
        · exact Event.noConfusion h
      · rcases hop with h | h
        · simp only [Event.issue.injEq] at h
          subst h
          simp
        · exact Event.noConfusion h
      · rcases hop with h | h
        · exact Event.noConfusion h
        · simp only [Event.wait.injEq] at h
          subst h
          simp
      · rcases hop with h | h
        · exact Event.noConfusion h
        · simp only [Event.wait.injEq] at h
          subst h
          simp
    · obtain ⟨y, j, rfl⟩ := mem_backward_loop_events he
      rcases hop with h | h <;> exact Event.noConfusion h
    · rcases mem_step_post1 he with rfl | rfl
      · rcases hop with h | h
        · simp only [Event.issue.injEq] at h
          subst h
          simp
        · exact Event.noConfusion h
      · rcases hop with h | h
        · exact Event.noConfusion h
        · simp only [Event.wait.injEq] at h
          subst h
          simp
    · rcases mem_step_pre2 he with rfl | rfl | rfl | rfl
      · rcases hop with h | h <;> exact Event.noConfusion h
      · rcases hop with h | h
        · simp only [Event.issue.injEq] at h
          subst h
          rcases hbuf with hb | hb <;> simp at hb
        · exact Event.noConfusion h
      · rcases hop with h | h
        · exact Event.noConfusion h
        · simp only [Event.wait.injEq] at h
          subst h
          rcases hbuf with hb | hb <;> simp at hb
      · rcases hop with h | h <;> exact Event.noConfusion h
    · obtain ⟨j, hj, rfl⟩ := mem_forward_loop_events he
      rcases hop with h | h <;> exact Event.noConfusion h
    · rcases mem_send_recv_grads (mem_step_mid2 he) with
        rfl | rfl | rfl | rfl | rfl | rfl | rfl
      · rcases hop with h | h <;> exact Event.noConfusion h
      · rcases hop with h | h <;> exact Event.noConfusion h
      · rcases hop with h | h
        · simp only [Event.issue.injEq] at h
          subst h
          rcases hbuf with hb | hb <;> cases odd_iteration <;> simp at hb
        · exact Event.noConfusion h
      · rcases hop with h | h
        · simp only [Event.issue.injEq] at h
          subst h
          rcases hbuf with hb | hb <;> simp at hb
        · exact Event.noConfusion h
      · rcases hop with h | h
        · exact Event.noConfusion h
        · simp only [Event.wait.injEq] at h
          subst h
          rcases hbuf with hb | hb <;> cases odd_iteration <;> simp at hb
      · rcases hop with h | h
        · exact Event.noConfusion h
        · simp only [Event.wait.injEq] at h
          subst h
          rcases hbuf with hb | hb <;> simp at hb
      · rcases hop with h | h <;> exact Event.noConfusion h
    · obtain ⟨y, j, rfl⟩ := mem_backward_loop_events he
      rcases hop with h | h <;> exact Event.noConfusion h
    · rcases mem_step_post2 he with rfl | rfl
      · rcases hop with h | h
        · simp only [Event.issue.injEq] at h
          subst h
          rcases hbuf with hb | hb <;> cases odd_iteration <;> simp at hb
        · exact Event.noConfusion h
      · rcases hop with h | h
        · exact Event.noConfusion h
        · simp only [Event.wait.injEq] at h
          subst h
          rcases hbuf with hb | hb <;> cases odd_iteration <;> simp at hb

/-- Witness: on a concrete four-rank master whose first-scheduled replica
occupies the edge rank, the step's trace contains the parameter-receive
wait toward rank 0 (and the edge hypothesis holds by computation). -/
theorem C9_edge_rank_parameter_schedule_witness :
    Event.wait (recv_params_model 0 false) ∈
      (run_step_allreduce
        { mp_size := 4, local_rank := 3, batch_size := 4, parts := 2,
          model1_size := 5, model2_size := 5,
          train_model1 :=
            { local_rank := 3, split_rank := 0, split_size := 1, parts := 2 },
          train_model2 :=
            { local_rank := 0, split_rank := 0, split_size := 1, parts := 2 } }
        (fun _ _ _ _ => (1, 1)) (List.replicate 8 0) (List.replicate 8 0)
        false).2.2 :=
  (C9_edge_rank_parameter_schedule _ _ _ _ false (by decide)).1


end TrainSpatialMaster
